import Mathlib

/-!
Verification development for the asynchronous inference pipeline of
`demos/common/pipelines/src/async_pipeline.cpp` (open_model_zoo).

The pipeline functions (`submitData`, `getResult`, `getInferenceResult`,
`waitForData`, the completion callback) are shallowly embedded as pure
functions over an explicit `PipelineState`.  `int64_t` arithmetic is
modelled on `Int` with explicit two's-complement wrapping.  Parts of the
repository that the single source file uses but whose sources are not
present (the `RequestsPool` class, the class header with its member
initializers, the `ResultBase` layout) are modelled from the spec and
marked as such in their doc comments.
-/

namespace AsyncPipelineModel

/-- Smallest value of a two's-complement `int64_t`. -/
def int64Min : Int := -(2 ^ 63)

/-- Largest value of a two's-complement `int64_t`. -/
def int64Max : Int := 2 ^ 63 - 1

/-- `int64MaxNat` is `int64Max` as a natural number. -/
def int64MaxNat : Nat := 2 ^ 63 - 1

/-- Two's-complement wrapping of an integer into the `int64_t` range. -/
def wrap64 (x : Int) : Int := (x + 2 ^ 63) % 2 ^ 64 - 2 ^ 63

/-- The cursor increment of `async_pipeline.cpp` lines 126-128 and 160-163:
`v++; if (v < 0) v = 0;` on an `int64_t` (overflow wraps, and a negative
wrapped value is reset to zero). -/
def bumpFrameId (x : Int) : Int :=
  if wrap64 (x + 1) < 0 then 0 else wrap64 (x + 1)

/-! ## Request slot pool

The `RequestsPool` class is used by `async_pipeline.cpp` but its own source
file is not part of the sources at hand, so its three operations are
modelled from the spec (section 4.1).  A pool is a fixed-length list of
per-slot flags, `true` = Idle, `false` = Busy. -/

/-- Modelled from the spec: `RequestsPool::getIdleRequest` (source file not
present).  "returns an idle slot and marks it Busy, or returns none if all
slots are Busy (non-blocking)".  Returns the index of the first idle slot
together with the updated pool. -/
def getIdleRequest : List Bool → Option Nat × List Bool
  | [] => (none, [])
  | b :: rest =>
    if b then (some 0, false :: rest)
    else
      let (r, rest') := getIdleRequest rest
      (r.map (· + 1), b :: rest')

/-- Modelled from the spec: `RequestsPool::setRequestIdle` (source file not
present).  "marks a Busy slot Idle". -/
def setRequestIdle (pool : List Bool) (slot : Nat) : List Bool :=
  pool.set slot true

/-- Modelled from the spec: `RequestsPool::isIdleRequestAvailable` (source
file not present).  "O(1) query used only as a wake predicate". -/
def isIdleRequestAvailable (pool : List Bool) : Bool :=
  pool.any (fun b => b)

/-! ## Data model -/

/-- `InferenceResult` (built in the completion callback, lines 105-113).
The class header is not among the sources; the fields are modelled from the
spec (section 3): sequence number, caller metadata handle, internal model
data handle, and the copied-out named output blobs. -/
structure InferenceResult (M D O : Type) where
  frameId : Int
  metaData : M
  internalModelData : D
  outputsData : List (String × O)
  deriving DecidableEq

/-- The caller-visible result of `getResult`.  Modelled from the spec: the
real `ResultBase` (header not among the sources) carries the sequence
number and the metadata handle; `payload` stands for the fields a concrete
model's postprocess adds in the derived result class. -/
structure FinalResult (M R : Type) where
  frameId : Int
  metaData : M
  payload : R
  deriving DecidableEq

/-- A completion callback registered by `SetCompletionCallback`
(lines 96-124) but not yet fired by the backend: its captures
`[frameID, request, internalModelData, metaData]`. -/
structure PendingCallback (M D : Type) where
  frameId : Int
  slot : Nat
  internalModelData : D
  metaData : M
  deriving DecidableEq

/-- The mutable state of one `AsyncPipeline` instance: the slot pool, the
pending-results map (`completedInferenceResults`), the two `int64_t`
cursors, the callback exception slot, and the set of registered-but-not-yet
fired completion callbacks (held by the backend).  Initial member values
are modelled from the spec where the header is missing. -/
structure PipelineState (M D O E : Type) where
  requestsPool : List Bool
  completedInferenceResults : List (Int × InferenceResult M D O)
  inputFrameId : Int
  outputFrameId : Int
  callbackException : Option E
  inFlight : List (PendingCallback M D)
  deriving DecidableEq

/-- The external collaborator functions of the model adapter (spec
section 6), opaque to the pipeline core. -/
structure ModelAdapter (I M D O R : Type) where
  preprocess : I → D
  outputsNames : List String
  postprocess : InferenceResult M D O → FinalResult M R

/-! ## Association-list helpers for the `std::unordered_map` -/

/-- Key lookup in the pending-results map (`completedInferenceResults.find`). -/
def lookupKey {α : Type} : List (Int × α) → Int → Option α
  | [], _ => none
  | (k', v) :: rest, k => if k' = k then some v else lookupKey rest k

/-- `std::map::emplace`: inserts only when the key is absent. -/
def emplace {α : Type} (m : List (Int × α)) (k : Int) (v : α) : List (Int × α) :=
  if (lookupKey m k).isSome then m else (k, v) :: m

/-- `completedInferenceResults.erase(it)`: removes the (first) entry with
the given key. -/
def eraseKey {α : Type} : List (Int × α) → Int → List (Int × α)
  | [], _ => []
  | (k', v) :: rest, k => if k' = k then rest else (k', v) :: eraseKey rest k

/-- Fire one registered callback: remove (and return) the first pending
callback with the given sequence number. -/
def takeCallback {M D : Type} : List (PendingCallback M D) → Int →
    Option (PendingCallback M D) × List (PendingCallback M D)
  | [], _ => (none, [])
  | cb :: rest, fid =>
    if cb.frameId = fid then (some cb, rest)
    else
      let (r, rest') := takeCallback rest fid
      (r, cb :: rest')

variable {I M D O E R : Type}

/-! ## The pipeline operations (from `async_pipeline.cpp`) -/

/-- `AsyncPipeline::submitData` (lines 87-132): read the input cursor,
acquire an idle slot (reject with `-1` if none), preprocess, register the
completion callback, increment the input cursor with wrap-to-zero, start
the request, and return the assigned sequence number. -/
def submitData (A : ModelAdapter I M D O R) (s : PipelineState M D O E)
    (inputData : I) (metaData : M) : Int × PipelineState M D O E :=
  let frameID := s.inputFrameId
  match getIdleRequest s.requestsPool with
  | (none, _) => (-1, s)
  | (some request, pool') =>
    let internalModelData := A.preprocess inputData
    (frameID,
      { s with
        requestsPool := pool'
        inFlight := s.inFlight ++
          [{ frameId := frameID, slot := request,
             internalModelData := internalModelData, metaData := metaData }]
        inputFrameId := bumpFrameId s.inputFrameId })

/-- The body of the completion callback when no exception is raised
(lines 101-116): build the `InferenceResult` (copying each named output
blob), emplace it into the pending-results map under its sequence number,
and release the slot back to the pool. -/
def completionCallbackRun (A : ModelAdapter I M D O R)
    (s : PipelineState M D O E) (cb : PendingCallback M D)
    (getBlob : String → O) : PipelineState M D O E :=
  let result : InferenceResult M D O :=
    { frameId := cb.frameId
      metaData := cb.metaData
      internalModelData := cb.internalModelData
      outputsData := A.outputsNames.map (fun name => (name, getBlob name)) }
  { s with
    completedInferenceResults :=
      emplace s.completedInferenceResults cb.frameId result
    requestsPool := setRequestIdle s.requestsPool cb.slot }

/-- The `catch` branch of the completion callback (lines 117-121): store
the raised error in the callback exception slot only when the slot is
currently empty. -/
def completionOnError (s : PipelineState M D O E) (err : E) :
    PipelineState M D O E :=
  { s with
    callbackException :=
      match s.callbackException with
      | none => some err
      | some e => some e }

/-- `AsyncPipeline::getInferenceResult` (lines 146-167): look up the
pending-results map at the output cursor; when absent, return the empty
result and leave the state untouched; when present, erase that entry and
advance the output cursor (to the retrieved frame id plus one, wrapping to
zero on overflow). -/
def getInferenceResult (s : PipelineState M D O E) :
    Option (InferenceResult M D O) × PipelineState M D O E :=
  match lookupKey s.completedInferenceResults s.outputFrameId with
  | none => (none, s)
  | some retVal =>
    (some retVal,
      { s with
        completedInferenceResults :=
          eraseKey s.completedInferenceResults s.outputFrameId
        outputFrameId := bumpFrameId retVal.frameId })

/-- `AsyncPipeline::getResult` (lines 134-144): empty inference result
gives an empty caller result; otherwise postprocess, then overwrite the
`ResultBase` part of the postprocessed object with the inference result's
(`*result = static_cast<ResultBase&>(infResult)`, line 141). -/
def getResult (A : ModelAdapter I M D O R) (s : PipelineState M D O E) :
    Option (FinalResult M R) × PipelineState M D O E :=
  match getInferenceResult s with
  | (none, s') => (none, s')
  | (some infResult, s') =>
    let result := A.postprocess infResult
    (some { result with
              frameId := infResult.frameId
              metaData := infResult.metaData },
      s')

/-- The wait predicate of `AsyncPipeline::waitForData` (lines 78-81):
`callbackException != nullptr || isIdleRequestAvailable() ||
completedInferenceResults.find(outputFrameId) != end()`. -/
def waitForDataPred (s : PipelineState M D O E) : Bool :=
  s.callbackException.isSome || isIdleRequestAvailable s.requestsPool ||
    (lookupKey s.completedInferenceResults s.outputFrameId).isSome

/-- Observable behaviour of one evaluation of `waitForData`'s predicate in
a given state: `none` means the call keeps blocking, `some none` means it
returns normally, `some (some e)` means it rethrows the stored callback
exception `e` (lines 83-84). -/
def waitForDataOutcome (s : PipelineState M D O E) : Option (Option E) :=
  if waitForDataPred s then some s.callbackException else none

/-! ## Trace semantics

Submissions and retrievals run on caller threads; completion callbacks run
on backend threads in an arbitrary order.  A trace is a list of these
events; the backend may fire a registered callback either successfully
(providing the output blobs) or with a raised error. -/

/-- One scheduled event of a pipeline execution. -/
inductive Event (I M O E : Type) where
  | submit (inputData : I) (metaData : M)
  | complete (frameId : Int) (getBlob : String → O)
  | completeFail (frameId : Int) (err : E)
  | getResult

/-- Whether an event is a submission. -/
def Event.isSubmit : Event I M O E → Bool
  | .submit _ _ => true
  | _ => false

/-- Whether an event is a successful completion (the only kind of event
that releases a slot back to the pool). -/
def Event.isComplete : Event I M O E → Bool
  | .complete _ _ => true
  | _ => false

/-- Number of submission events in a trace. -/
def countSubmits (t : List (Event I M O E)) : Nat :=
  (t.filter Event.isSubmit).length

/-- A pipeline state together with the observable history of the run: the
accepted submissions (returned sequence number and the metadata passed by
the caller, in call order) and the non-empty results handed out by
`getResult` (in call order). -/
structure RunLog (M D O E R : Type) where
  st : PipelineState M D O E
  accepted : List (Int × M)
  retrieved : List (FinalResult M R)
  deriving DecidableEq

/-- Execute one event. -/
def runStep (A : ModelAdapter I M D O R) (rs : RunLog M D O E R) :
    Event I M O E → RunLog M D O E R
  | .submit inputData metaData =>
    let (r, s') := submitData A rs.st inputData metaData
    if r = -1 then { rs with st := s' }
    else { rs with st := s', accepted := rs.accepted ++ [(r, metaData)] }
  | .complete fid getBlob =>
    match takeCallback rs.st.inFlight fid with
    | (none, _) => rs
    | (some cb, rest) =>
      { rs with st := completionCallbackRun A { rs.st with inFlight := rest } cb getBlob }
  | .completeFail fid err =>
    match takeCallback rs.st.inFlight fid with
    | (none, _) => rs
    | (some _, rest) =>
      { rs with st := completionOnError { rs.st with inFlight := rest } err }
  | .getResult =>
    match getResult A rs.st with
    | (none, s') => { rs with st := s' }
    | (some res, s') => { rs with st := s', retrieved := rs.retrieved ++ [res] }

/-- Execute a trace of events. -/
def runTrace (A : ModelAdapter I M D O R) (rs : RunLog M D O E R) :
    List (Event I M O E) → RunLog M D O E R
  | [] => rs
  | e :: t => runTrace A (runStep A rs e) t

/-- Modelled from the spec: the initial pipeline state (the class header
with the member initializers is not among the sources).  Both cursors
start at 0 ("retrieving N results yields sequence numbers 0..N-1"), the
pool holds `capacity` idle slots, the pending-results map is empty, no
exception is stored and no callback is registered. -/
def initState (capacity : Nat) : PipelineState M D O E :=
  { requestsPool := List.replicate capacity true
    completedInferenceResults := []
    inputFrameId := 0
    outputFrameId := 0
    callbackException := none
    inFlight := [] }

/-- A fresh run of a pipeline with the given pool capacity. -/
def initRun (capacity : Nat) : RunLog M D O E R :=
  { st := initState capacity, accepted := [], retrieved := [] }

/-- The submission events for a list of inputs with their metadata. -/
def submitEvents : List (I × M) → List (Event I M O E)
  | [] => []
  | (i, m) :: rest => Event.submit i m :: submitEvents rest

/-- Successful completion events for the given sequence numbers, all
reading blobs through the same backend accessor. -/
def completeEvents (getBlob : String → O) : List Nat → List (Event I M O E)
  | [] => []
  | k :: rest => Event.complete (k : Int) getBlob :: completeEvents getBlob rest

/-! ## Arithmetic lemmas for the wrapped `int64_t` cursor increment -/

theorem wrap64_eq_self {x : Int} (h0 : int64Min ≤ x) (h1 : x ≤ int64Max) :
    wrap64 x = x := by
  unfold wrap64
  unfold int64Min at h0
  unfold int64Max at h1
  omega

theorem bumpFrameId_nonneg (x : Int) : 0 ≤ bumpFrameId x := by
  unfold bumpFrameId
  split <;> omega

theorem bumpFrameId_eq_add_one {x : Int} (h0 : 0 ≤ x) (h1 : x < int64Max) :
    bumpFrameId x = x + 1 := by
  unfold bumpFrameId
  rw [wrap64_eq_self (by unfold int64Min; omega) (by omega)]
  unfold int64Max at h1
  omega

theorem bumpFrameId_int64Max : bumpFrameId int64Max = 0 := by
  unfold bumpFrameId wrap64 int64Max
  norm_num

theorem int64MaxNat_cast : (int64MaxNat : Int) = int64Max := by
  unfold int64MaxNat int64Max
  norm_num

/-! ## Lemmas on the association-list operations -/

theorem lookupKey_mem {α : Type} {m : List (Int × α)} {k : Int} {v : α}
    (h : lookupKey m k = some v) : (k, v) ∈ m := by
  induction m with
  | nil => simp [lookupKey] at h
  | cons kv rest ih =>
    obtain ⟨k', v'⟩ := kv
    by_cases hk : k' = k
    · subst hk
      simp [lookupKey] at h
      simp [h]
    · simp [lookupKey, hk] at h
      exact List.mem_cons_of_mem _ (ih h)

theorem mem_emplace {α : Type} {m : List (Int × α)} {k : Int} {v : α}
    {x : Int × α} (h : x ∈ emplace m k v) : x ∈ m ∨ x = (k, v) := by
  unfold emplace at h
  split at h
  · exact Or.inl h
  · rw [List.mem_cons] at h
    exact Or.symm h

theorem lookupKey_emplace_isSome_self {α : Type} (m : List (Int × α))
    (k : Int) (v : α) : (lookupKey (emplace m k v) k).isSome := by
  unfold emplace
  split
  · assumption
  · simp [lookupKey]

theorem lookupKey_emplace_isSome_mono {α : Type} {m : List (Int × α)}
    {k' : Int} (k : Int) (v : α) (h : (lookupKey m k').isSome) :
    (lookupKey (emplace m k v) k').isSome := by
  unfold emplace
  split
  · exact h
  · by_cases hk : k = k' <;> simp [lookupKey, hk, h]

theorem mem_eraseKey {α : Type} {m : List (Int × α)} {k : Int}
    {x : Int × α} (h : x ∈ eraseKey m k) : x ∈ m := by
  induction m with
  | nil => simp [eraseKey] at h
  | cons kv rest ih =>
    obtain ⟨k', v'⟩ := kv
    by_cases hk : k' = k
    · simp only [eraseKey, if_pos hk] at h
      exact List.mem_cons_of_mem _ h
    · simp only [eraseKey, if_neg hk, List.mem_cons] at h
      rcases h with h | h
      · simp [h]
      · exact List.mem_cons_of_mem _ (ih h)

theorem lookupKey_eraseKey_ne {α : Type} {m : List (Int × α)} {k k' : Int}
    (hk : k' ≠ k) : lookupKey (eraseKey m k) k' = lookupKey m k' := by
  induction m with
  | nil => simp [eraseKey]
  | cons kv rest ih =>
    obtain ⟨k₀, v₀⟩ := kv
    by_cases h₀ : k₀ = k
    · subst h₀
      have hne : ¬(k₀ = k') := fun h => hk h.symm
      simp [eraseKey, lookupKey, hne]
    · simp only [eraseKey, if_neg h₀, lookupKey]
      by_cases h₁ : k₀ = k' <;> simp [h₁, ih]

theorem takeCallback_fst_mem {l : List (PendingCallback M D)} {fid : Int}
    {cb : PendingCallback M D} (h : (takeCallback l fid).1 = some cb) :
    cb ∈ l ∧ cb.frameId = fid := by
  induction l with
  | nil => simp [takeCallback] at h
  | cons c rest ih =>
    by_cases hc : c.frameId = fid
    · simp [takeCallback, hc] at h
      subst h
      exact ⟨List.mem_cons_self _ _, hc⟩
    · simp [takeCallback, hc] at h
      obtain ⟨h1, h2⟩ := ih h
      exact ⟨List.mem_cons_of_mem _ h1, h2⟩

theorem takeCallback_snd_subset {l : List (PendingCallback M D)} {fid : Int}
    {x : PendingCallback M D} (h : x ∈ (takeCallback l fid).2) : x ∈ l := by
  induction l with
  | nil => simp [takeCallback] at h
  | cons c rest ih =>
    by_cases hc : c.frameId = fid
    · simp only [takeCallback, if_pos hc] at h
      exact List.mem_cons_of_mem _ h
    · simp only [takeCallback, if_neg hc, List.mem_cons] at h
      rcases h with h | h
      · simp [h]
      · exact List.mem_cons_of_mem _ (ih h)

theorem takeCallback_isSome_of_mem {l : List (PendingCallback M D)}
    {fid : Int} (h : ∃ cb ∈ l, cb.frameId = fid) :
    (takeCallback l fid).1.isSome := by
  induction l with
  | nil => simp at h
  | cons c rest ih =>
    by_cases hc : c.frameId = fid
    · simp [takeCallback, hc]
    · simp only [takeCallback, if_neg hc]
      obtain ⟨cb, hmem, hfid⟩ := h
      rw [List.mem_cons] at hmem
      rcases hmem with hmem | hmem
      · exact absurd (hmem ▸ hfid) hc
      · exact ih ⟨cb, hmem, hfid⟩

theorem takeCallback_snd_mem_of_ne {l : List (PendingCallback M D)}
    {fid : Int} {x : PendingCallback M D} (hx : x ∈ l)
    (hne : x.frameId ≠ fid) : x ∈ (takeCallback l fid).2 := by
  induction l with
  | nil => simp at hx
  | cons c rest ih =>
    rw [List.mem_cons] at hx
    by_cases hc : c.frameId = fid
    · simp only [takeCallback, if_pos hc]
      rcases hx with hx | hx
      · exact absurd (hx ▸ hc) hne
      · exact hx
    · simp only [takeCallback, if_neg hc, List.mem_cons]
      rcases hx with hx | hx
      · exact Or.inl hx
      · exact Or.inr (ih hx)

/-! ## Lemmas on the slot pool -/

theorem getIdleRequest_fst_none_iff (pool : List Bool) :
    (getIdleRequest pool).1 = none ↔ isIdleRequestAvailable pool = false := by
  induction pool with
  | nil => simp [getIdleRequest, isIdleRequestAvailable]
  | cons b rest ih =>
    by_cases hb : b
    · simp [getIdleRequest, isIdleRequestAvailable, hb]
    · simp only [Bool.not_eq_true] at hb
      subst hb
      simpa [getIdleRequest, isIdleRequestAvailable] using ih

theorem getIdleRequest_none_snd {pool : List Bool}
    (h : (getIdleRequest pool).1 = none) : (getIdleRequest pool).2 = pool := by
  induction pool with
  | nil => simp [getIdleRequest]
  | cons b rest ih =>
    by_cases hb : b
    · simp [getIdleRequest, hb] at h
    · simp only [Bool.not_eq_true] at hb
      subst hb
      simp [getIdleRequest] at h ⊢
      exact ih h

/-! ## Unfolding equations for the pipeline operations -/

theorem submitData_of_none {A : ModelAdapter I M D O R}
    {s : PipelineState M D O E} (inputData : I) (metaData : M)
    (h : (getIdleRequest s.requestsPool).1 = none) :
    submitData A s inputData metaData = (-1, s) := by
  unfold submitData
  rcases hp : getIdleRequest s.requestsPool with ⟨r, pool'⟩
  rw [hp] at h
  simp only at h
  subst h
  rfl

theorem submitData_of_some {A : ModelAdapter I M D O R}
    {s : PipelineState M D O E} {q : Nat} {pool' : List Bool}
    (inputData : I) (metaData : M)
    (h : getIdleRequest s.requestsPool = (some q, pool')) :
    submitData A s inputData metaData =
      (s.inputFrameId,
        { s with
          requestsPool := pool'
          inFlight := s.inFlight ++
            [{ frameId := s.inputFrameId, slot := q,
               internalModelData := A.preprocess inputData,
               metaData := metaData }]
          inputFrameId := bumpFrameId s.inputFrameId }) := by
  unfold submitData
  rw [h]

theorem getInferenceResult_of_none {s : PipelineState M D O E}
    (h : lookupKey s.completedInferenceResults s.outputFrameId = none) :
    getInferenceResult s = (none, s) := by
  unfold getInferenceResult
  rw [h]

theorem getInferenceResult_of_some {s : PipelineState M D O E}
    {retVal : InferenceResult M D O}
    (h : lookupKey s.completedInferenceResults s.outputFrameId = some retVal) :
    getInferenceResult s =
      (some retVal,
        { s with
          completedInferenceResults :=
            eraseKey s.completedInferenceResults s.outputFrameId
          outputFrameId := bumpFrameId retVal.frameId }) := by
  unfold getInferenceResult
  rw [h]

theorem getResult_of_none (A : ModelAdapter I M D O R)
    {s : PipelineState M D O E}
    (h : lookupKey s.completedInferenceResults s.outputFrameId = none) :
    getResult A s = (none, s) := by
  unfold getResult
  rw [getInferenceResult_of_none h]

theorem getResult_of_some (A : ModelAdapter I M D O R)
    {s : PipelineState M D O E} {retVal : InferenceResult M D O}
    (h : lookupKey s.completedInferenceResults s.outputFrameId = some retVal) :
    getResult A s =
      (some { A.postprocess retVal with
                frameId := retVal.frameId
                metaData := retVal.metaData },
        { s with
          completedInferenceResults :=
            eraseKey s.completedInferenceResults s.outputFrameId
          outputFrameId := bumpFrameId retVal.frameId }) := by
  unfold getResult
  rw [getInferenceResult_of_some h]

/-! ## The reassembly invariant -/

/-- Index bound from a successful optional lookup. -/
theorem getElemOpt_lt {α : Type} {l : List α} {j : Nat} {a : α}
    (h : l[j]? = some a) : j < l.length := by
  by_contra hc
  rw [List.getElem?_eq_none (Nat.le_of_not_lt hc)] at h
  cases h

/-- The global invariant tying a reachable pipeline state to the history
of its run: the input cursor equals the number of accepted submissions,
the output cursor equals the number of retrieved results, every
registered-but-unfired callback and every pending-results entry belongs to
the accepted submission with its sequence number (and carries that
submission's metadata), and the results retrieved so far are exactly the
accepted submissions `0, 1, 2, ...` in order. -/
def Inv (rs : RunLog M D O E R) : Prop :=
  rs.st.inputFrameId = (rs.accepted.length : Int) ∧
  rs.st.outputFrameId = (rs.retrieved.length : Int) ∧
  (∀ cb ∈ rs.st.inFlight, 0 ≤ cb.frameId ∧
      cb.frameId < (rs.accepted.length : Int) ∧
      rs.accepted[cb.frameId.toNat]? = some (cb.frameId, cb.metaData)) ∧
  (∀ kv ∈ rs.st.completedInferenceResults, kv.2.frameId = kv.1 ∧
      0 ≤ kv.1 ∧ kv.1 < (rs.accepted.length : Int) ∧
      rs.accepted[kv.1.toNat]? = some (kv.1, kv.2.metaData)) ∧
  (∀ (j : Nat) (r : FinalResult M R), rs.retrieved[j]? = some r →
      r.frameId = (j : Int) ∧ rs.accepted[j]? = some ((j : Int), r.metaData))

theorem inv_initRun (capacity : Nat) :
    Inv (initRun (M := M) (D := D) (O := O) (E := E) (R := R) capacity) := by
  refine ⟨rfl, rfl, ?_, ?_, ?_⟩ <;> intros <;> simp_all [initRun, initState]

theorem inv_runStep_submit {A : ModelAdapter I M D O R}
    {rs : RunLog M D O E R} (hInv : Inv rs)
    (hLen : rs.accepted.length < int64MaxNat)
    (inputData : I) (metaData : M) :
    Inv (runStep A rs (Event.submit inputData metaData)) ∧
    (runStep A rs (Event.submit inputData metaData)).accepted.length ≤
      rs.accepted.length + 1 := by
  obtain ⟨hIn, hOut, hFlight, hMap, hRet⟩ := hInv
  have hLenMax : (rs.accepted.length : Int) < int64Max := by
    rw [← int64MaxNat_cast]
    exact_mod_cast hLen
  rcases hp : getIdleRequest rs.st.requestsPool with ⟨q, pool'⟩
  cases q with
  | none =>
    have hnone : (getIdleRequest rs.st.requestsPool).1 = none := by
      rw [hp]
    have hsub := submitData_of_none (A := A) (s := rs.st) inputData metaData hnone
    simp only [runStep, hsub]
    exact ⟨⟨hIn, hOut, hFlight, hMap, hRet⟩, Nat.le_succ _⟩
  | some req =>
    have hsub := submitData_of_some (A := A) inputData metaData hp
    have hne : rs.st.inputFrameId ≠ -1 := by
      rw [hIn]
      omega
    simp only [runStep, hsub, if_neg hne]
    have hBump : bumpFrameId rs.st.inputFrameId = rs.st.inputFrameId + 1 := by
      refine bumpFrameId_eq_add_one ?_ ?_
      · rw [hIn]; omega
      · rw [hIn]; exact hLenMax
    constructor
    · refine ⟨?_, ?_, ?_, ?_, ?_⟩
      · rw [hBump, hIn]
        simp only [List.length_append, List.length_singleton]
        push_cast
        ring
      · simpa using hOut
      · intro cb hcb
        simp only [List.mem_append, List.mem_singleton] at hcb
        rcases hcb with hcb | hcb
        · obtain ⟨h1, h2, h3⟩ := hFlight cb hcb
          refine ⟨h1, ?_, ?_⟩
          · simp only [List.length_append, List.length_singleton]
            push_cast
            omega
          · rw [List.getElem?_append_left]
            · exact h3
            · have := getElemOpt_lt h3
              omega
        · subst hcb
          simp only
          refine ⟨by rw [hIn]; omega, ?_, ?_⟩
          · rw [hIn]
            simp only [List.length_append, List.length_singleton]
            push_cast
            omega
          · rw [hIn]
            have : ((rs.accepted.length : Int)).toNat = rs.accepted.length := by
              omega
            rw [this, List.getElem?_concat_length]
      · intro kv hkv
        obtain ⟨h1, h2, h3, h4⟩ := hMap kv hkv
        refine ⟨h1, h2, ?_, ?_⟩
        · simp only [List.length_append, List.length_singleton]
          push_cast
          omega
        · rw [List.getElem?_append_left]
          · exact h4
          · have := getElemOpt_lt h4
            omega
      · intro j r hjr
        obtain ⟨h1, h2⟩ := hRet j r hjr
        refine ⟨h1, ?_⟩
        rw [List.getElem?_append_left]
        · exact h2
        · exact getElemOpt_lt h2
    · simp

theorem inv_runStep_complete {A : ModelAdapter I M D O R}
    {rs : RunLog M D O E R} (hInv : Inv rs) (fid : Int)
    (getBlob : String → O) :
    Inv (runStep A rs (Event.complete fid getBlob)) ∧
    (runStep A rs (Event.complete fid getBlob)).accepted = rs.accepted ∧
    (runStep A rs (Event.complete fid getBlob)).retrieved = rs.retrieved := by
  obtain ⟨hIn, hOut, hFlight, hMap, hRet⟩ := hInv
  rcases ht : takeCallback rs.st.inFlight fid with ⟨found, rest⟩
  cases found with
  | none =>
    simp only [runStep, ht]
    exact ⟨⟨hIn, hOut, hFlight, hMap, hRet⟩, trivial, trivial⟩
  | some cb =>
    have hcb : cb ∈ rs.st.inFlight ∧ cb.frameId = fid :=
      takeCallback_fst_mem (by rw [ht])
    have hrest : ∀ x ∈ rest, x ∈ rs.st.inFlight := by
      intro x hx
      exact takeCallback_snd_subset (by rw [ht]; exact hx)
    obtain ⟨hf0, hf1, hf2⟩ := hFlight cb hcb.1
    simp only [runStep, ht, completionCallbackRun]
    refine ⟨⟨hIn, hOut, ?_, ?_, hRet⟩, trivial, trivial⟩
    · intro c hc
      exact hFlight c (hrest c hc)
    · intro kv hkv
      rcases mem_emplace hkv with hold | hnew
      · exact hMap kv hold
      · subst hnew
        exact ⟨rfl, hf0, hf1, hf2⟩

theorem inv_runStep_completeFail {A : ModelAdapter I M D O R}
    {rs : RunLog M D O E R} (hInv : Inv rs) (fid : Int) (err : E) :
    Inv (runStep A rs (Event.completeFail fid err)) ∧
    (runStep A rs (Event.completeFail fid err)).accepted = rs.accepted ∧
    (runStep A rs (Event.completeFail fid err)).retrieved = rs.retrieved := by
  obtain ⟨hIn, hOut, hFlight, hMap, hRet⟩ := hInv
  rcases ht : takeCallback rs.st.inFlight fid with ⟨found, rest⟩
  cases found with
  | none =>
    simp only [runStep, ht]
    exact ⟨⟨hIn, hOut, hFlight, hMap, hRet⟩, trivial, trivial⟩
  | some cb =>
    have hrest : ∀ x ∈ rest, x ∈ rs.st.inFlight := by
      intro x hx
      exact takeCallback_snd_subset (by rw [ht]; exact hx)
    simp only [runStep, ht, completionOnError]
    refine ⟨⟨hIn, hOut, ?_, hMap, hRet⟩, trivial, trivial⟩
    intro c hc
    exact hFlight c (hrest c hc)

theorem inv_runStep_getResult {A : ModelAdapter I M D O R}
    {rs : RunLog M D O E R} (hInv : Inv rs)
    (hLe : rs.accepted.length ≤ int64MaxNat) :
    Inv (runStep A rs Event.getResult) ∧
    (runStep A rs Event.getResult).accepted = rs.accepted := by
  obtain ⟨hIn, hOut, hFlight, hMap, hRet⟩ := hInv
  rcases hl : lookupKey rs.st.completedInferenceResults rs.st.outputFrameId
    with _ | retVal
  · simp only [runStep, getResult_of_none A hl]
    exact ⟨⟨hIn, hOut, hFlight, hMap, hRet⟩, trivial⟩
  · have hmem := hMap _ (lookupKey_mem hl)
    have hF : retVal.frameId = rs.st.outputFrameId := hmem.1
    have h0 : 0 ≤ rs.st.outputFrameId := hmem.2.1
    have hlt : rs.st.outputFrameId < (rs.accepted.length : Int) := hmem.2.2.1
    have hacc : rs.accepted[rs.st.outputFrameId.toNat]? =
        some (rs.st.outputFrameId, retVal.metaData) := hmem.2.2.2
    have hltMax : rs.st.outputFrameId < int64Max := by
      have : (rs.accepted.length : Int) ≤ int64Max := by
        rw [← int64MaxNat_cast]
        exact_mod_cast hLe
      omega
    have hBump : bumpFrameId retVal.frameId = rs.st.outputFrameId + 1 := by
      rw [hF]
      exact bumpFrameId_eq_add_one h0 hltMax
    simp only [runStep, getResult_of_some A hl]
    refine ⟨⟨hIn, ?_, hFlight, ?_, ?_⟩, trivial⟩
    · simp only [hBump, hOut, List.length_append, List.length_singleton]
      push_cast
      ring
    · intro kv hkv
      exact hMap kv (mem_eraseKey hkv)
    · intro j r hjr
      rcases Nat.lt_trichotomy j rs.retrieved.length with hj | hj | hj
      · rw [List.getElem?_append_left hj] at hjr
        exact hRet j r hjr
      · subst hj
        rw [List.getElem?_concat_length] at hjr
        injection hjr with hjr
        subst hjr
        have htn : rs.st.outputFrameId.toNat = rs.retrieved.length := by
          omega
        constructor
        · show retVal.frameId = (rs.retrieved.length : Int)
          rw [hF, hOut]
        · show rs.accepted[rs.retrieved.length]? =
            some ((rs.retrieved.length : Int), retVal.metaData)
          rw [← hOut, ← htn]
          exact hacc
      · exfalso
        have : (rs.retrieved ++
            [{ A.postprocess retVal with
                 frameId := retVal.frameId
                 metaData := retVal.metaData }])[j]? = none := by
          apply List.getElem?_eq_none
          simp only [List.length_append, List.length_singleton]
          omega
        rw [this] at hjr
        cases hjr

theorem countSubmits_cons_submit (i : I) (m : M) (t : List (Event I M O E)) :
    countSubmits (Event.submit i m :: t) = countSubmits t + 1 := by
  simp [countSubmits, Event.isSubmit, List.filter_cons]

theorem countSubmits_cons_complete (fid : Int) (g : String → O)
    (t : List (Event I M O E)) :
    countSubmits (Event.complete fid g :: t) = countSubmits t := by
  simp [countSubmits, Event.isSubmit, List.filter_cons]

theorem countSubmits_cons_completeFail (fid : Int) (err : E)
    (t : List (Event I M O E)) :
    countSubmits (Event.completeFail fid err :: t) = countSubmits t := by
  simp [countSubmits, Event.isSubmit, List.filter_cons]

theorem countSubmits_cons_getResult (t : List (Event I M O E)) :
    countSubmits (Event.getResult (I := I) (M := M) (O := O) (E := E) :: t) =
      countSubmits t := by
  simp [countSubmits, Event.isSubmit, List.filter_cons]

/-- The invariant holds along every trace whose number of submissions
cannot overflow the input cursor, and the accepted-submission count grows
by at most the number of submission events. -/
theorem inv_runTrace (A : ModelAdapter I M D O R) (t : List (Event I M O E)) :
    ∀ rs : RunLog M D O E R, Inv rs →
      rs.accepted.length + countSubmits t ≤ int64MaxNat →
      Inv (runTrace A rs t) ∧
      (runTrace A rs t).accepted.length ≤
        rs.accepted.length + countSubmits t := by
  induction t with
  | nil =>
    intro rs hInv _
    exact ⟨hInv, Nat.le_add_right _ _⟩
  | cons e t ih =>
    intro rs hInv hB
    cases e with
    | submit i m =>
      rw [countSubmits_cons_submit] at hB
      have hLen : rs.accepted.length < int64MaxNat := by omega
      obtain ⟨hInv', hlen'⟩ := inv_runStep_submit (A := A) hInv hLen i m
      have hB' : (runStep A rs (Event.submit i m)).accepted.length +
          countSubmits t ≤ int64MaxNat := by omega
      obtain ⟨h1, h2⟩ := ih _ hInv' hB'
      refine ⟨h1, ?_⟩
      rw [countSubmits_cons_submit]
      simp only [runTrace] at h2 ⊢
      omega
    | complete fid g =>
      rw [countSubmits_cons_complete] at hB
      obtain ⟨hInv', hacc, _⟩ := inv_runStep_complete (A := A) hInv fid g
      have hB' : (runStep A rs (Event.complete fid g)).accepted.length +
          countSubmits t ≤ int64MaxNat := by rw [hacc]; omega
      obtain ⟨h1, h2⟩ := ih _ hInv' hB'
      refine ⟨h1, ?_⟩
      rw [countSubmits_cons_complete]
      simp only [runTrace] at h2 ⊢
      rw [hacc] at h2
      omega
    | completeFail fid err =>
      rw [countSubmits_cons_completeFail] at hB
      obtain ⟨hInv', hacc, _⟩ := inv_runStep_completeFail (A := A) hInv fid err
      have hB' : (runStep A rs (Event.completeFail fid err)).accepted.length +
          countSubmits t ≤ int64MaxNat := by rw [hacc]; omega
      obtain ⟨h1, h2⟩ := ih _ hInv' hB'
      refine ⟨h1, ?_⟩
      rw [countSubmits_cons_completeFail]
      simp only [runTrace] at h2 ⊢
      rw [hacc] at h2
      omega
    | getResult =>
      rw [countSubmits_cons_getResult] at hB
      have hLe : rs.accepted.length ≤ int64MaxNat := by omega
      obtain ⟨hInv', hacc⟩ := inv_runStep_getResult (A := A) hInv hLe
      have hB' : (runStep A rs Event.getResult).accepted.length +
          countSubmits t ≤ int64MaxNat := by rw [hacc]; omega
      obtain ⟨h1, h2⟩ := ih _ hInv' hB'
      refine ⟨h1, ?_⟩
      rw [countSubmits_cons_getResult]
      simp only [runTrace] at h2 ⊢
      rw [hacc] at h2
      omega

/-! ## Concrete phase lemmas for the ordered-release scenario -/

/-- The pool of `c` slots after the first `k` have been handed out in
order and none released. -/
def poolK (c k : Nat) : List Bool :=
  List.replicate k false ++ List.replicate (c - k) true

theorem poolK_zero (c : Nat) : poolK c 0 = List.replicate c true := by
  simp [poolK]

theorem getIdleRequest_poolK : ∀ (k c : Nat), k < c →
    getIdleRequest (poolK c k) = (some k, poolK c (k + 1)) := by
  intro k
  induction k with
  | zero =>
    intro c hc
    cases c with
    | zero => omega
    | succ c' =>
      simp [poolK, getIdleRequest, List.replicate_succ]
  | succ k' ih =>
    intro c hc
    cases c with
    | zero => omega
    | succ c' =>
      have hk' : k' < c' := by omega
      have hstep : poolK (c' + 1) (k' + 1) = false :: poolK c' k' := by
        simp [poolK, List.replicate_succ, Nat.succ_sub_succ]
      have hstep2 : poolK (c' + 1) (k' + 2) = false :: poolK c' (k' + 1) := by
        simp [poolK, List.replicate_succ, Nat.succ_sub_succ]
      rw [hstep, hstep2]
      simp [getIdleRequest, ih c' hk']

theorem isIdleRequestAvailable_poolK_full (c : Nat) :
    isIdleRequestAvailable (poolK c c) = false := by
  simp [poolK, isIdleRequestAvailable, List.any_eq_true]

/-- The pending callbacks registered by submitting `inputs` when the
sequence counter starts at `k` and slots are handed out in index order. -/
def flightOf (A : ModelAdapter I M D O R) : Nat → List (I × M) →
    List (PendingCallback M D)
  | _, [] => []
  | k, (i, m) :: rest =>
    { frameId := (k : Int), slot := k,
      internalModelData := A.preprocess i, metaData := m } ::
      flightOf A (k + 1) rest

/-- The accepted-submission log produced by submitting `inputs` when the
sequence counter starts at `k`. -/
def acceptedOf : Nat → List (I × M) → List (Int × M)
  | _, [] => []
  | k, (_, m) :: rest => ((k : Int), m) :: acceptedOf (k + 1) rest

theorem runTrace_submits (A : ModelAdapter I M D O R) :
    ∀ (inputs : List (I × M)) (k c : Nat)
      (flight0 : List (PendingCallback M D)) (acc0 : List (Int × M))
      (ret0 : List (FinalResult M R))
      (cmp0 : List (Int × InferenceResult M D O)) (exc0 : Option E)
      (outF : Int),
      k + inputs.length ≤ c → k + inputs.length ≤ int64MaxNat →
      runTrace A ⟨⟨poolK c k, cmp0, (k : Int), outF, exc0, flight0⟩, acc0, ret0⟩
          (submitEvents inputs) =
        ⟨⟨poolK c (k + inputs.length), cmp0, ((k + inputs.length : Nat) : Int),
          outF, exc0, flight0 ++ flightOf A k inputs⟩,
          acc0 ++ acceptedOf k inputs, ret0⟩ := by
  intro inputs
  induction inputs with
  | nil =>
    intro k c flight0 acc0 ret0 cmp0 exc0 outF _ _
    simp [submitEvents, runTrace, flightOf, acceptedOf]
  | cons im rest ih =>
    intro k c flight0 acc0 ret0 cmp0 exc0 outF hc hmax
    obtain ⟨i, m⟩ := im
    have hkc : k < c := by
      simp only [List.length_cons] at hc
      omega
    have hIdle : getIdleRequest
        (⟨poolK c k, cmp0, (k : Int), outF, exc0, flight0⟩ :
          PipelineState M D O E).requestsPool = (some k, poolK c (k + 1)) :=
      getIdleRequest_poolK k c hkc
    have hsub := submitData_of_some (A := A) i m hIdle
    have hne : (⟨poolK c k, cmp0, (k : Int), outF, exc0, flight0⟩ :
        PipelineState M D O E).inputFrameId ≠ -1 := by
      simp only
      omega
    have hBump : bumpFrameId (k : Int) = ((k : Int) + 1) := by
      refine bumpFrameId_eq_add_one (by omega) ?_
      rw [← int64MaxNat_cast]
      simp only [List.length_cons] at hmax
      exact_mod_cast (by omega : k < int64MaxNat)
    simp only [submitEvents, runTrace, runStep, hsub, if_neg hne]
    have hcast : ((k : Int) + 1) = ((k + 1 : Nat) : Int) := by push_cast; ring
    simp only [hBump, hcast]
    rw [ih (k + 1) c _ _ ret0 cmp0 exc0 outF
      (by simp only [List.length_cons] at hc; omega)
      (by simp only [List.length_cons] at hmax; omega)]
    simp only [List.length_cons, flightOf, acceptedOf, List.append_assoc,
      List.singleton_append]
    have harith : k + 1 + rest.length = k + (rest.length + 1) := by omega
    rw [harith]

/-- A pending-results entry, once present, stays present across any
sequence of successful completions (completions only insert). -/
theorem completes_lookup_mono (A : ModelAdapter I M D O R) (g : String → O) :
    ∀ (π : List Nat) (rs : RunLog M D O E R) (k : Int),
      (lookupKey rs.st.completedInferenceResults k).isSome →
      (lookupKey (runTrace A rs (completeEvents g π)).st.completedInferenceResults
        k).isSome := by
  intro π
  induction π with
  | nil =>
    intro rs k h
    exact h
  | cons p π' ih =>
    intro rs k h
    simp only [completeEvents, runTrace]
    apply ih
    rcases ht : takeCallback rs.st.inFlight (p : Int) with ⟨found, rest⟩
    cases found with
    | none =>
      simp only [runStep, ht]
      exact h
    | some cb =>
      simp only [runStep, ht, completionCallbackRun]
      exact lookupKey_emplace_isSome_mono _ _ h

/-- Firing a set of distinct registered callbacks stores a pending result
for each of their sequence numbers, and leaves the output cursor, the
accepted log, the retrieved log and the exception slot untouched. -/
theorem runTrace_completes (A : ModelAdapter I M D O R) (g : String → O) :
    ∀ (π : List Nat) (rs : RunLog M D O E R),
      π.Nodup →
      (∀ k ∈ π, ∃ cb ∈ rs.st.inFlight, cb.frameId = (k : Int)) →
      (∀ k ∈ π,
        (lookupKey (runTrace A rs (completeEvents g π)).st.completedInferenceResults
          (k : Int)).isSome) ∧
      (runTrace A rs (completeEvents g π)).st.outputFrameId =
        rs.st.outputFrameId ∧
      (runTrace A rs (completeEvents g π)).retrieved = rs.retrieved ∧
      (runTrace A rs (completeEvents g π)).accepted = rs.accepted ∧
      (runTrace A rs (completeEvents g π)).st.callbackException =
        rs.st.callbackException := by
  intro π
  induction π with
  | nil =>
    intro rs _ _
    exact ⟨by simp, rfl, rfl, rfl, rfl⟩
  | cons p π' ih =>
    intro rs hnd hmem
    obtain ⟨cbp, hcbp, hfid⟩ := hmem p (List.mem_cons_self _ _)
    have hsome : (takeCallback rs.st.inFlight (p : Int)).1.isSome :=
      takeCallback_isSome_of_mem ⟨cbp, hcbp, hfid⟩
    rcases ht : takeCallback rs.st.inFlight (p : Int) with ⟨found, rest⟩
    cases found with
    | none =>
      rw [ht] at hsome
      simp at hsome
    | some cb =>
      have hcb : cb ∈ rs.st.inFlight ∧ cb.frameId = (p : Int) :=
        takeCallback_fst_mem (by rw [ht])
      have hnd' : π'.Nodup := (List.nodup_cons.mp hnd).2
      have hpnot : p ∉ π' := (List.nodup_cons.mp hnd).1
      simp only [completeEvents, runTrace, runStep, ht, completionCallbackRun]
      set rs' : RunLog M D O E R :=
        { rs with st :=
          { rs.st with
            inFlight := rest
            completedInferenceResults :=
              emplace rs.st.completedInferenceResults cb.frameId
                { frameId := cb.frameId
                  metaData := cb.metaData
                  internalModelData := cb.internalModelData
                  outputsData :=
                    A.outputsNames.map (fun name => (name, g name)) }
            requestsPool := setRequestIdle rs.st.requestsPool cb.slot } }
        with hrs'
      have hmem' : ∀ k ∈ π', ∃ cb' ∈ rs'.st.inFlight, cb'.frameId = (k : Int) := by
        intro k hk
        obtain ⟨cb', hcb', hfid'⟩ := hmem k (List.mem_cons_of_mem _ hk)
        refine ⟨cb', ?_, hfid'⟩
        have hne : cb'.frameId ≠ (p : Int) := by
          rw [hfid']
          intro hEq
          have hkp : k = p := by exact_mod_cast hEq
          exact hpnot (hkp ▸ hk)
        have := takeCallback_snd_mem_of_ne hcb' hne
        rw [ht] at this
        exact this
      obtain ⟨ih1, ih2, ih3, ih4, ih5⟩ := ih rs' hnd' hmem'
      refine ⟨?_, ih2, ih3, ih4, ih5⟩
      intro k hk
      rcases List.mem_cons.mp hk with hkp | hk'
      · subst hkp
        apply completes_lookup_mono
        simp only [hrs']
        rw [← hcb.2]
        exact lookupKey_emplace_isSome_self _ _ _
      · exact ih1 k hk'

/-- Draining the pipeline: when every still-missing sequence number up to
`N` has a pending result, `g` retrievals extend the retrieved log to
exactly `N` results (and accepted submissions stay untouched). -/
theorem runTrace_gets (A : ModelAdapter I M D O R) :
    ∀ (g : Nat) (rs : RunLog M D O E R) (N : Nat),
      Inv rs →
      rs.accepted.length ≤ int64MaxNat →
      rs.retrieved.length + g = N →
      (∀ k : Nat, rs.retrieved.length ≤ k → k < N →
        (lookupKey rs.st.completedInferenceResults (k : Int)).isSome) →
      Inv (runTrace A rs (List.replicate g Event.getResult)) ∧
      (runTrace A rs (List.replicate g Event.getResult)).retrieved.length = N ∧
      (runTrace A rs (List.replicate g Event.getResult)).accepted =
        rs.accepted := by
  intro g
  induction g with
  | zero =>
    intro rs N hInv _ hcount _
    simp only [List.replicate, runTrace]
    exact ⟨hInv, by omega, trivial⟩
  | succ g' ih =>
    intro rs N hInv hLe hcount hcomp
    have hOut := hInv.2.1
    have hlen_lt : rs.retrieved.length < N := by omega
    have hsome := hcomp rs.retrieved.length (le_refl _) hlen_lt
    rcases hl : lookupKey rs.st.completedInferenceResults rs.st.outputFrameId
      with _ | retVal
    · rw [hOut] at hl
      rw [hl] at hsome
      simp at hsome
    · have hmem := hInv.2.2.2.1 _ (lookupKey_mem hl)
      have hF : retVal.frameId = rs.st.outputFrameId := hmem.1
      obtain ⟨hInv', hacc'⟩ := inv_runStep_getResult (A := A) hInv hLe
      have hreq := getResult_of_some A hl
      have hstep : runStep A rs Event.getResult =
          { rs with
            st := { rs.st with
              completedInferenceResults :=
                eraseKey rs.st.completedInferenceResults rs.st.outputFrameId
              outputFrameId := bumpFrameId retVal.frameId }
            retrieved := rs.retrieved ++
              [{ A.postprocess retVal with
                   frameId := retVal.frameId
                   metaData := retVal.metaData }] } := by
        simp only [runStep, hreq]
      rw [hstep] at hInv' hacc'
      have hrep : List.replicate (g' + 1) (Event.getResult (I := I) (M := M)
          (O := O) (E := E)) = Event.getResult :: List.replicate g'
          Event.getResult := List.replicate_succ _ _
      rw [hrep]
      simp only [runTrace, hstep]
      obtain ⟨c1, c2, c3⟩ := ih _ N hInv'
        (by simpa using hLe)
        (by simp only [List.length_append, List.length_singleton]; omega)
        (by
          intro k hk1 hk2
          simp only [List.length_append, List.length_singleton] at hk1
          simp only
          have hne : (k : Int) ≠ rs.st.outputFrameId := by
            rw [hOut]
            intro hEq
            have : k = rs.retrieved.length := by exact_mod_cast hEq
            omega
          rw [lookupKey_eraseKey_ne hne]
          exact hcomp k (by omega) hk2)
      exact ⟨c1, c2, by rw [c3]⟩

/-- Under the invariant, the retrieved results carry the sequence numbers
`0, 1, ..., length-1` in order. -/
theorem retrieved_frameIds {rs : RunLog M D O E R} (hInv : Inv rs) :
    rs.retrieved.map (fun r => r.frameId) =
      (List.range rs.retrieved.length).map Int.ofNat := by
  apply List.ext_getElem
  · simp
  · intro i h1 h2
    simp only [List.getElem_map, List.getElem_range]
    have h1' : i < rs.retrieved.length := by simpa using h1
    exact (hInv.2.2.2.2 i _ (List.getElem?_eq_getElem h1')).1

/-- Submission, failing completion and retrieval never put a slot back
into the pool: an exhausted pool stays exhausted as long as no successful
completion callback runs. -/
theorem noRelease_stays_unavailable (A : ModelAdapter I M D O R) :
    ∀ (t : List (Event I M O E)) (rs : RunLog M D O E R),
      (∀ e ∈ t, e.isComplete = false) →
      isIdleRequestAvailable rs.st.requestsPool = false →
      isIdleRequestAvailable (runTrace A rs t).st.requestsPool = false := by
  intro t
  induction t with
  | nil =>
    intro rs _ h
    exact h
  | cons e t ih =>
    intro rs hnc h
    have hnc' : ∀ e' ∈ t, Event.isComplete e' = false := fun e' he' =>
      hnc e' (List.mem_cons_of_mem _ he')
    simp only [runTrace]
    apply ih _ hnc'
    cases e with
    | submit i m =>
      have hnone : (getIdleRequest rs.st.requestsPool).1 = none :=
        (getIdleRequest_fst_none_iff _).mpr h
      simp only [runStep, submitData_of_none i m hnone]
      split <;> exact h
    | complete fid g =>
      have := hnc (Event.complete fid g) (List.mem_cons_self _ _)
      simp [Event.isComplete] at this
    | completeFail fid err =>
      rcases ht : takeCallback rs.st.inFlight fid with ⟨found, rest⟩
      cases found with
      | none => simpa only [runStep, ht] using h
      | some cb => simpa only [runStep, ht, completionOnError] using h
    | getResult =>
      rcases hl : lookupKey rs.st.completedInferenceResults rs.st.outputFrameId
        with _ | retVal
      · simpa only [runStep, getResult_of_none A hl] using h
      · simpa only [runStep, getResult_of_some A hl] using h

/-- One step never makes the input cursor negative. -/
theorem inputFrameId_nonneg_step (A : ModelAdapter I M D O R)
    (rs : RunLog M D O E R) (e : Event I M O E)
    (h : 0 ≤ rs.st.inputFrameId) : 0 ≤ (runStep A rs e).st.inputFrameId := by
  cases e with
  | submit i m =>
    rcases hp : getIdleRequest rs.st.requestsPool with ⟨q, pool'⟩
    cases q with
    | none =>
      have hnone : (getIdleRequest rs.st.requestsPool).1 = none := by rw [hp]
      simp only [runStep, submitData_of_none i m hnone]
      split <;> exact h
    | some req =>
      simp only [runStep, submitData_of_some i m hp]
      split <;> exact bumpFrameId_nonneg _
  | complete fid g =>
    rcases ht : takeCallback rs.st.inFlight fid with ⟨found, rest⟩
    cases found with
    | none => simpa only [runStep, ht] using h
    | some cb => simpa only [runStep, ht, completionCallbackRun] using h
  | completeFail fid err =>
    rcases ht : takeCallback rs.st.inFlight fid with ⟨found, rest⟩
    cases found with
    | none => simpa only [runStep, ht] using h
    | some cb => simpa only [runStep, ht, completionOnError] using h
  | getResult =>
    rcases hl : lookupKey rs.st.completedInferenceResults rs.st.outputFrameId
      with _ | retVal
    · simpa only [runStep, getResult_of_none A hl] using h
    · simpa only [runStep, getResult_of_some A hl] using h

/-- Along every run from a fresh pipeline the input cursor stays
non-negative. -/
theorem inputFrameId_nonneg (A : ModelAdapter I M D O R) :
    ∀ (t : List (Event I M O E)) (rs : RunLog M D O E R),
      0 ≤ rs.st.inputFrameId → 0 ≤ (runTrace A rs t).st.inputFrameId := by
  intro t
  induction t with
  | nil =>
    intro rs h
    exact h
  | cons e t ih =>
    intro rs h
    exact ih _ (inputFrameId_nonneg_step A rs e h)

theorem runTrace_append (A : ModelAdapter I M D O R)
    (t1 t2 : List (Event I M O E)) : ∀ rs : RunLog M D O E R,
    runTrace A rs (t1 ++ t2) = runTrace A (runTrace A rs t1) t2 := by
  induction t1 with
  | nil => intro rs; rfl
  | cons e t1 ih =>
    intro rs
    simp only [List.cons_append, runTrace]
    exact ih _

theorem countSubmits_append (t1 t2 : List (Event I M O E)) :
    countSubmits (t1 ++ t2) = countSubmits t1 + countSubmits t2 := by
  simp [countSubmits, List.filter_append]

theorem countSubmits_submitEvents (inputs : List (I × M)) :
    countSubmits (submitEvents (O := O) (E := E) inputs) = inputs.length := by
  induction inputs with
  | nil => rfl
  | cons im rest ih =>
    obtain ⟨i, m⟩ := im
    simp only [submitEvents, countSubmits_cons_submit, ih, List.length_cons]

theorem countSubmits_completeEvents (g : String → O) (π : List Nat) :
    countSubmits (completeEvents (I := I) (M := M) (E := E) g π) = 0 := by
  induction π with
  | nil => rfl
  | cons p rest ih => simp only [completeEvents, countSubmits_cons_complete, ih]

theorem countSubmits_replicate_getResult (n : Nat) :
    countSubmits (List.replicate n
      (Event.getResult (I := I) (M := M) (O := O) (E := E))) = 0 := by
  induction n with
  | zero => rfl
  | succ n ih => simp only [List.replicate_succ, countSubmits_cons_getResult, ih]

theorem acceptedOf_length : ∀ (k : Nat) (inputs : List (I × M)),
    (acceptedOf k inputs).length = inputs.length := by
  intro k inputs
  induction inputs generalizing k with
  | nil => rfl
  | cons im rest ih =>
    obtain ⟨i, m⟩ := im
    simp only [acceptedOf, List.length_cons, ih]

theorem flightOf_mem (A : ModelAdapter I M D O R) :
    ∀ (inputs : List (I × M)) (base k : Nat), base ≤ k →
      k < base + inputs.length →
      ∃ cb ∈ flightOf (M := M) (D := D) A base inputs, cb.frameId = (k : Int) := by
  intro inputs
  induction inputs with
  | nil =>
    intro base k h1 h2
    simp only [List.length_nil] at h2
    omega
  | cons im rest ih =>
    intro base k h1 h2
    obtain ⟨i, m⟩ := im
    by_cases hk : k = base
    · subst hk
      exact ⟨_, List.mem_cons_self _ _, rfl⟩
    · simp only [List.length_cons] at h2
      obtain ⟨cb, hcb, hfid⟩ := ih (base + 1) k (by omega) (by omega)
      exact ⟨cb, List.mem_cons_of_mem _ hcb, hfid⟩

/-! ## Unique keys of the pending-results map -/

theorem lookupKey_eq_none_iff {α : Type} (m : List (Int × α)) (k : Int) :
    lookupKey m k = none ↔ k ∉ m.map Prod.fst := by
  induction m with
  | nil => simp [lookupKey]
  | cons kv rest ih =>
    obtain ⟨k', v⟩ := kv
    by_cases hk : k' = k
    · subst hk
      simp [lookupKey]
    · simp only [lookupKey, if_neg hk, List.map_cons, List.mem_cons]
      rw [ih]
      constructor
      · intro h hor
        rcases hor with hor | hor
        · exact hk hor.symm
        · exact h hor
      · intro h hmem
        exact h (Or.inr hmem)

theorem eraseKey_sublist {α : Type} : ∀ (m : List (Int × α)) (k : Int),
    (eraseKey m k).Sublist m := by
  intro m k
  induction m with
  | nil => simp [eraseKey]
  | cons kv rest ih =>
    obtain ⟨k', v⟩ := kv
    by_cases hk : k' = k
    · simp only [eraseKey, if_pos hk]
      exact List.sublist_cons_self _ _
    · simp only [eraseKey, if_neg hk]
      exact ih.cons₂ _

theorem lookupKey_eraseKey_self {α : Type} {m : List (Int × α)} {k : Int}
    (hnd : (m.map Prod.fst).Nodup) : lookupKey (eraseKey m k) k = none := by
  induction m with
  | nil => simp [eraseKey, lookupKey]
  | cons kv rest ih =>
    obtain ⟨k', v⟩ := kv
    simp only [List.map_cons, List.nodup_cons] at hnd
    by_cases hk : k' = k
    · subst hk
      simp only [eraseKey, if_pos rfl]
      rw [lookupKey_eq_none_iff]
      exact hnd.1
    · simp only [eraseKey, if_neg hk, lookupKey, if_neg hk]
      exact ih hnd.2

/-- Keys of the pending-results map are pairwise distinct (emplace never
inserts a duplicate). -/
def keysNodup (s : PipelineState M D O E) : Prop :=
  (s.completedInferenceResults.map Prod.fst).Nodup

theorem keysNodup_emplace {s : List (Int × InferenceResult M D O)} {k : Int}
    {v : InferenceResult M D O} (hnd : (s.map Prod.fst).Nodup) :
    ((emplace s k v).map Prod.fst).Nodup := by
  unfold emplace
  split
  · exact hnd
  · rename_i hcond
    have hl : lookupKey s k = none := by
      cases hx : lookupKey s k with
      | none => rfl
      | some v' =>
        rw [hx] at hcond
        simp at hcond
    simp only [List.map_cons, List.nodup_cons]
    exact ⟨(lookupKey_eq_none_iff s k).mp hl, hnd⟩

theorem keysNodup_runStep (A : ModelAdapter I M D O R)
    (rs : RunLog M D O E R) (e : Event I M O E)
    (h : keysNodup rs.st) : keysNodup (runStep A rs e).st := by
  unfold keysNodup at h ⊢
  cases e with
  | submit i m =>
    rcases hp : getIdleRequest rs.st.requestsPool with ⟨q, pool'⟩
    cases q with
    | none =>
      have hnone : (getIdleRequest rs.st.requestsPool).1 = none := by rw [hp]
      simp only [runStep, submitData_of_none i m hnone]
      split <;> exact h
    | some req =>
      simp only [runStep, submitData_of_some i m hp]
      split <;> exact h
  | complete fid g =>
    rcases ht : takeCallback rs.st.inFlight fid with ⟨found, rest⟩
    cases found with
    | none => simpa only [runStep, ht] using h
    | some cb =>
      simp only [runStep, ht, completionCallbackRun]
      exact keysNodup_emplace h
  | completeFail fid err =>
    rcases ht : takeCallback rs.st.inFlight fid with ⟨found, rest⟩
    cases found with
    | none => simpa only [runStep, ht] using h
    | some cb => simpa only [runStep, ht, completionOnError] using h
  | getResult =>
    rcases hl : lookupKey rs.st.completedInferenceResults rs.st.outputFrameId
      with _ | retVal
    · simpa only [runStep, getResult_of_none A hl] using h
    · simp only [runStep, getResult_of_some A hl]
      exact ((eraseKey_sublist _ _).map _).nodup h

theorem keysNodup_runTrace (A : ModelAdapter I M D O R)
    (t : List (Event I M O E)) : ∀ (rs : RunLog M D O E R),
    keysNodup rs.st → keysNodup (runTrace A rs t).st := by
  induction t with
  | nil =>
    intro rs h
    exact h
  | cons e t ih =>
    intro rs h
    exact ih _ (keysNodup_runStep A rs e h)

/-- Rejection characterization on states with a non-negative input cursor:
`submitData` returns the `-1` sentinel exactly when the pool has no idle
slot. -/
theorem submitData_rejected_iff (A : ModelAdapter I M D O R)
    {s : PipelineState M D O E} (h0 : 0 ≤ s.inputFrameId) (i : I) (m : M) :
    (submitData A s i m).1 = -1 ↔
      isIdleRequestAvailable s.requestsPool = false := by
  constructor
  · intro h
    by_contra hav
    have hav' : ¬((getIdleRequest s.requestsPool).1 = none) := by
      rw [getIdleRequest_fst_none_iff]
      exact hav
    rcases hp : getIdleRequest s.requestsPool with ⟨q, pool'⟩
    cases q with
    | none => exact hav' (by rw [hp])
    | some req =>
      rw [submitData_of_some i m hp] at h
      simp only at h
      omega
  · intro h
    rw [submitData_of_none i m ((getIdleRequest_fst_none_iff _).mpr h)]

/-! ## Concrete instantiation used by witnesses and counterexamples -/

/-- A concrete model adapter over small scalar types, used to evaluate the
pipeline on explicit traces. -/
def natAdapter : ModelAdapter Unit Nat Unit Nat Unit :=
  { preprocess := fun _ => ()
    outputsNames := ["output"]
    postprocess := fun _ => { frameId := 0, metaData := 0, payload := () } }

/-- A concrete backend blob accessor. -/
def natBlob : String → Nat := fun _ => 7

/-! ## Claim theorems -/

/-- C1: For every sequence of `N` accepted submissions (pool capacity at
least `N`, so no pool exhaustion), retrieving the results after the
completion continuations have fired in an arbitrary order `π` yields
results whose sequence numbers are `0 .. N-1` in exactly that order; and a
pending result stored under a sequence number different from the current
output cursor is left in the map untouched by a retrieval (it stays held
until its turn). -/
theorem claim_C1_ordered_release
    (A : ModelAdapter I M D O R) (N c : Nat) (inputs : List (I × M))
    (π : List Nat) (getBlob : String → O)
    (hN : inputs.length = N) (hc : N ≤ c) (hmax : N ≤ int64MaxNat)
    (hπ : π.Perm (List.range N)) :
    ((runTrace A (initRun (E := E) c)
        (submitEvents inputs ++ (completeEvents getBlob π ++
          List.replicate N Event.getResult))).retrieved.map
            (fun r => r.frameId)) = (List.range N).map Int.ofNat ∧
    (∀ (s : PipelineState M D O E) (k : Int) (r : InferenceResult M D O),
      k ≠ s.outputFrameId →
      lookupKey s.completedInferenceResults k = some r →
      lookupKey (getInferenceResult s).2.completedInferenceResults k =
        some r) := by
  subst hN
  constructor
  · have h1 := runTrace_submits (E := E) (R := R) A inputs 0 c [] [] [] [] none 0
      (by omega) (by omega)
    have hinit : (initRun (M := M) (D := D) (O := O) (E := E) (R := R) c) =
        ⟨⟨poolK c 0, [], ((0 : Nat) : Int), 0, none, []⟩, [], []⟩ := by
      simp [initRun, initState, poolK_zero]
    rw [runTrace_append, runTrace_append, hinit, h1]
    simp only [Nat.zero_add, List.nil_append]
    set rs1 : RunLog M D O E R :=
      ⟨⟨poolK c inputs.length, [], ((inputs.length : Nat) : Int), 0, none,
        flightOf A 0 inputs⟩, acceptedOf 0 inputs, []⟩ with hrs1
    have hnd : π.Nodup := hπ.symm.nodup (List.nodup_range _)
    have hmem : ∀ k ∈ π, ∃ cb ∈ rs1.st.inFlight, cb.frameId = (k : Int) := by
      intro k hk
      have hkN : k < inputs.length := by
        have := hπ.subset hk
        simpa [List.mem_range] using this
      exact flightOf_mem A inputs 0 k (Nat.zero_le _) (by omega)
    obtain ⟨hc2, hout2, hret2, hacc2, _⟩ :=
      runTrace_completes A getBlob π rs1 hnd hmem
    have hInv2 : Inv (runTrace A rs1 (completeEvents getBlob π)) := by
      have := inv_runTrace A
        (submitEvents inputs ++ completeEvents getBlob π)
        (initRun (M := M) (D := D) (O := O) (E := E) (R := R) c)
        (inv_initRun c)
        (by
          rw [countSubmits_append, countSubmits_submitEvents,
            countSubmits_completeEvents]
          simpa [initRun] using hmax)
      rw [runTrace_append, hinit, h1] at this
      simp only [Nat.zero_add, List.nil_append] at this
      exact this.1
    obtain ⟨hInv3, hlen3, _⟩ := runTrace_gets A inputs.length
      (runTrace A rs1 (completeEvents getBlob π)) inputs.length hInv2
      (by
        rw [hacc2]
        simp only [hrs1]
        rw [acceptedOf_length]
        exact hmax)
      (by rw [hret2]; simp [hrs1])
      (by
        intro k hk1 hk2
        apply hc2
        exact hπ.mem_iff.mpr (by simpa [List.mem_range] using hk2))
    rw [retrieved_frameIds hInv3, hlen3]
  · intro s k r hk hl
    rcases hcur : lookupKey s.completedInferenceResults s.outputFrameId
      with _ | retVal
    · rw [getInferenceResult_of_none hcur]
      exact hl
    · rw [getInferenceResult_of_some hcur]
      simp only
      rw [lookupKey_eraseKey_ne hk]
      exact hl

/-- Witness for C1: pool capacity 2, submissions with metadata 10 and 11,
completion order reversed (`1` before `0`), two retrievals: the retrieved
sequence numbers are `[0, 1]`. -/
theorem claim_C1_witness :
    (([((), 10), ((), 11)] : List (Unit × Nat)).length = 2 ∧ (2 : Nat) ≤ 2 ∧
      (2 : Nat) ≤ int64MaxNat ∧ ([1, 0] : List Nat).Perm (List.range 2)) ∧
    ((runTrace natAdapter (initRun (E := Nat) 2)
        (submitEvents [((), 10), ((), 11)] ++ (completeEvents natBlob [1, 0] ++
          List.replicate 2 Event.getResult))).retrieved.map
            (fun r => r.frameId)) = (List.range 2).map Int.ofNat :=
  ⟨⟨rfl, le_refl 2, by norm_num [int64MaxNat], by decide⟩,
   (claim_C1_ordered_release natAdapter 2 2 [((), 10), ((), 11)] [1, 0] natBlob
      rfl (le_refl 2) (by norm_num [int64MaxNat]) (by decide)).1⟩

/-- C2 counterexample: with pool capacity `C = 1`, one accepted submission
(sequence number 0) followed by its completion callback — and **zero
retrievals** — the second submission (submission `C + 1`) is *accepted*
(returns 1, not the `-1` sentinel), because slots are released by the
completion callback, not by retrieval.  This refutes "after C successful
submissions with no retrievals the (C+1)-th submission is rejected". -/
theorem claim_C2_counterexample :
    (runTrace natAdapter (initRun (E := Nat) 1)
        [Event.submit () 5, Event.complete 0 natBlob]).retrieved.length = 0 ∧
    (runTrace natAdapter (initRun (E := Nat) 1)
        [Event.submit () 5, Event.complete 0 natBlob]).accepted.length = 1 ∧
    (submitData natAdapter (runTrace natAdapter (initRun (E := Nat) 1)
        [Event.submit () 5, Event.complete 0 natBlob]).st () 6).1 = 1 := by
  decide

/-- C2 (amended): `submitData` returns the `-1` sentinel, without
blocking, exactly when no idle slot is available; after `C` accepted
submissions into a fresh pipeline of capacity `C` with no intervening slot
release, the next submission is rejected; and after exhaustion every
further submission keeps being rejected until a successful completion
callback releases a slot (retrievals and failed callbacks do not). -/
theorem claim_C2_backpressure (A : ModelAdapter I M D O R) (c : Nat)
    (t : List (Event I M O E)) (inputs : List (I × M)) (i : I) (m : M)
    (hlen : inputs.length = c) (hmax : c ≤ int64MaxNat) :
    ((submitData A (runTrace A (initRun c) t).st i m).1 = -1 ↔
      isIdleRequestAvailable
        (runTrace A (initRun c) t).st.requestsPool = false) ∧
    (submitData A (runTrace A (initRun (E := E) c)
      (submitEvents (O := O) (E := E) inputs)).st i m).1 = -1 ∧
    (∀ (rs : RunLog M D O E R) (t' : List (Event I M O E)),
      isIdleRequestAvailable rs.st.requestsPool = false →
      (∀ e ∈ t', e.isComplete = false) →
      (submitData A (runTrace A rs t').st i m).1 = -1) := by
  refine ⟨?_, ?_, ?_⟩
  · refine submitData_rejected_iff A ?_ i m
    apply inputFrameId_nonneg
    simp [initRun, initState]
  · have h0 : 0 ≤ (runTrace A (initRun (E := E) c)
        (submitEvents (O := O) (E := E) inputs)).st.inputFrameId := by
      apply inputFrameId_nonneg
      simp [initRun, initState]
    rw [submitData_rejected_iff A h0 i m]
    have h1 := runTrace_submits (E := E) (R := R) A inputs 0 c [] [] [] []
      none 0 (by omega) (by omega)
    have hinit : (initRun (M := M) (D := D) (O := O) (E := E) (R := R) c) =
        ⟨⟨poolK c 0, [], ((0 : Nat) : Int), 0, none, []⟩, [], []⟩ := by
      simp [initRun, initState, poolK_zero]
    rw [hinit, h1]
    show isIdleRequestAvailable (poolK c (0 + inputs.length)) = false
    rw [Nat.zero_add, hlen]
    exact isIdleRequestAvailable_poolK_full c
  · intro rs t' hnoidle hnc
    have h := noRelease_stays_unavailable A t' rs hnc hnoidle
    rw [submitData_of_none i m ((getIdleRequest_fst_none_iff _).mpr h)]

/-- Witness for C2 (amended): capacity 1; on the fresh pipeline the
rejection sentinel tracks pool availability, and after one accepted
submission with no completion the next submission returns `-1`. -/
theorem claim_C2_witness :
    (([((), 3)] : List (Unit × Nat)).length = 1 ∧ (1 : Nat) ≤ int64MaxNat) ∧
    ((submitData natAdapter
        (runTrace natAdapter (initRun (E := Nat) 1) []).st () 4).1 = -1 ↔
      isIdleRequestAvailable
        (runTrace natAdapter (initRun (E := Nat) 1) []).st.requestsPool =
          false) ∧
    (submitData natAdapter (runTrace natAdapter (initRun (E := Nat) 1)
      (submitEvents (O := Nat) (E := Nat) [((), 3)])).st () 4).1 = -1 :=
  ⟨⟨rfl, by norm_num [int64MaxNat]⟩,
   (claim_C2_backpressure natAdapter 1 [] [((), 3)] () 4 rfl
      (by norm_num [int64MaxNat])).1,
   (claim_C2_backpressure natAdapter 1 [] [((), 3)] () 4 rfl
      (by norm_num [int64MaxNat])).2.1⟩

/-- C3: the Callback Exception Slot is single-assignment: no step of the
pipeline ever changes a non-empty slot (the first stored error is never
overwritten nor cleared), a continuation error lands in an empty slot, and
a non-empty slot is rethrown by the next `waitForData`. -/
theorem claim_C3_exception_slot :
    (∀ (A : ModelAdapter I M D O R) (rs : RunLog M D O E R)
        (e : Event I M O E) (err : E),
      rs.st.callbackException = some err →
      (runStep A rs e).st.callbackException = some err) ∧
    (∀ (s : PipelineState M D O E) (err : E),
      s.callbackException = none →
      (completionOnError s err).callbackException = some err) ∧
    (∀ (s : PipelineState M D O E) (err : E),
      s.callbackException = some err →
      waitForDataOutcome s = some (some err)) := by
  refine ⟨?_, ?_, ?_⟩
  · intro A rs e err h
    cases e with
    | submit i m =>
      rcases hp : getIdleRequest rs.st.requestsPool with ⟨q, pool'⟩
      cases q with
      | none =>
        have hnone : (getIdleRequest rs.st.requestsPool).1 = none := by
          rw [hp]
        simp only [runStep, submitData_of_none i m hnone]
        split <;> exact h
      | some req =>
        simp only [runStep, submitData_of_some i m hp]
        split <;> exact h
    | complete fid g =>
      rcases ht : takeCallback rs.st.inFlight fid with ⟨found, rest⟩
      cases found with
      | none => simpa only [runStep, ht] using h
      | some cb => simpa only [runStep, ht, completionCallbackRun] using h
    | completeFail fid err2 =>
      rcases ht : takeCallback rs.st.inFlight fid with ⟨found, rest⟩
      cases found with
      | none => simpa only [runStep, ht] using h
      | some cb =>
        simp only [runStep, ht, completionOnError, h]
    | getResult =>
      rcases hl : lookupKey rs.st.completedInferenceResults
        rs.st.outputFrameId with _ | retVal
      · simpa only [runStep, getResult_of_none A hl] using h
      · simpa only [runStep, getResult_of_some A hl] using h
  · intro s err h
    simp [completionOnError, h]
  · intro s err h
    simp [waitForDataOutcome, waitForDataPred, h]

/-- Witness for C3: a stored error 7 survives a later failing
continuation (error 9); error 3 lands in an empty slot; the stored error 7
is rethrown by `waitForData`. -/
theorem claim_C3_witness :
    ((⟨⟨[true], [], 0, 0, some 7, []⟩, [], []⟩ :
        RunLog Nat Unit Nat Nat Unit).st.callbackException = some 7 ∧
      (runStep natAdapter (⟨⟨[true], [], 0, 0, some 7, []⟩, [], []⟩ :
        RunLog Nat Unit Nat Nat Unit)
        (Event.completeFail 0 9)).st.callbackException = some 7) ∧
    (completionOnError (⟨[true], [], 0, 0, none, []⟩ :
        PipelineState Nat Unit Nat Nat) 3).callbackException = some 3 ∧
    waitForDataOutcome (⟨[true], [], 0, 0, some 7, []⟩ :
        PipelineState Nat Unit Nat Nat) = some (some 7) :=
  ⟨⟨rfl,
    (claim_C3_exception_slot (I := Unit) (M := Nat) (D := Unit) (O := Nat)
      (E := Nat) (R := Unit)).1 natAdapter _ (Event.completeFail 0 9) 7 rfl⟩,
   (claim_C3_exception_slot (I := Unit) (M := Nat) (D := Unit) (O := Nat)
      (E := Nat) (R := Unit)).2.1 _ 3 rfl,
   (claim_C3_exception_slot (I := Unit) (M := Nat) (D := Unit) (O := Nat)
      (E := Nat) (R := Unit)).2.2 _ 7 rfl⟩

/-- Spec condition (a) of section 4.4, in the spec's words: "the Callback
Exception Slot is non-empty". -/
def specCondExceptionPending (s : PipelineState M D O E) : Prop :=
  s.callbackException ≠ none

/-- Spec condition (b) of section 4.4, in the spec's words: "at least one
idle slot exists in the pool". -/
def specCondIdleSlot (s : PipelineState M D O E) : Prop :=
  ∃ i : Nat, s.requestsPool[i]? = some true

/-- Spec condition (c) of section 4.4, in the spec's words: "the Pending
Results Map contains an entry for the current output cursor". -/
def specCondResultReady (s : PipelineState M D O E) : Prop :=
  ∃ r, lookupKey s.completedInferenceResults s.outputFrameId = some r

/-- The source wait predicate (lines 78-81) holds exactly when one of the
spec's three conditions holds. -/
theorem waitForDataPred_iff (s : PipelineState M D O E) :
    waitForDataPred s = true ↔
      (specCondExceptionPending s ∨ specCondIdleSlot s ∨
        specCondResultReady s) := by
  unfold waitForDataPred specCondExceptionPending specCondIdleSlot
    specCondResultReady isIdleRequestAvailable
  simp only [Bool.or_eq_true, List.any_eq_true, Option.isSome_iff_ne_none]
  constructor
  · intro h
    rcases h with (h | ⟨x, hx, hxt⟩) | h
    · exact Or.inl h
    · refine Or.inr (Or.inl ?_)
      obtain ⟨i, hi⟩ := List.mem_iff_getElem?.mp hx
      exact ⟨i, by rw [hi, hxt]⟩
    · exact Or.inr (Or.inr (Option.ne_none_iff_exists'.mp h))
  · intro h
    rcases h with h | ⟨i, hi⟩ | h
    · exact Or.inl (Or.inl h)
    · refine Or.inl (Or.inr ?_)
      exact ⟨true, List.mem_iff_getElem?.mpr ⟨i, hi⟩, rfl⟩
    · exact Or.inr (Option.ne_none_iff_exists'.mpr h)

/-- C4: an evaluation of `waitForData`'s wait predicate keeps the caller
blocked (`none`) exactly when all three release conditions are false —
(a) exception slot non-empty, (b) an idle slot exists, (c) a pending
result is ready for the output cursor — and when the exception slot holds
an error the call rethrows it. -/
theorem claim_C4_waitForData (s : PipelineState M D O E) :
    (waitForDataOutcome s = none ↔
      ¬(specCondExceptionPending s ∨ specCondIdleSlot s ∨
        specCondResultReady s)) ∧
    (∀ err : E, s.callbackException = some err →
      waitForDataOutcome s = some (some err)) := by
  constructor
  · constructor
    · intro h hdisj
      rw [← waitForDataPred_iff] at hdisj
      unfold waitForDataOutcome at h
      rw [if_pos hdisj] at h
      cases h
    · intro h
      unfold waitForDataOutcome
      rw [if_neg (fun hp => h ((waitForDataPred_iff s).mp hp))]
  · intro err herr
    have hp : waitForDataPred s = true := by
      unfold waitForDataPred
      rw [herr]
      simp
    unfold waitForDataOutcome
    rw [if_pos hp, herr]

/-- Witness for C4: in a state with an empty slot pool, no pending result
and no stored exception the wait keeps blocking; with a stored error 7 the
wait rethrows it. -/
theorem claim_C4_witness :
    (waitForDataOutcome (⟨[], [], 0, 0, none, []⟩ :
        PipelineState Nat Unit Nat Nat) = none ↔
      ¬(specCondExceptionPending (⟨[], [], 0, 0, none, []⟩ :
          PipelineState Nat Unit Nat Nat) ∨
        specCondIdleSlot (⟨[], [], 0, 0, none, []⟩ :
          PipelineState Nat Unit Nat Nat) ∨
        specCondResultReady (⟨[], [], 0, 0, none, []⟩ :
          PipelineState Nat Unit Nat Nat))) ∧
    waitForDataOutcome (⟨[false], [], 0, 0, some 7, []⟩ :
        PipelineState Nat Unit Nat Nat) = some (some 7) :=
  ⟨(claim_C4_waitForData _).1, (claim_C4_waitForData _).2 7 rfl⟩

/-- C5: when the pending-results map has no entry for the output cursor,
`getResult` returns the empty result and leaves the state untouched (it
never blocks); when an entry is present, `getResult` removes exactly that
entry, advances the output cursor by one (with wrap), and returns the
postprocessed result whose `ResultBase` part is overwritten with the
inference result's.  The two hypotheses are reachable-state facts: map
entries carry their key as sequence number and keys are distinct. -/
theorem claim_C5_getResult (A : ModelAdapter I M D O R)
    (s : PipelineState M D O E)
    (hkeys : ∀ kv ∈ s.completedInferenceResults, kv.2.frameId = kv.1)
    (hnd : keysNodup s) :
    (lookupKey s.completedInferenceResults s.outputFrameId = none →
      getResult A s = (none, s)) ∧
    (∀ retVal,
      lookupKey s.completedInferenceResults s.outputFrameId = some retVal →
      (getResult A s).1 =
        some { A.postprocess retVal with
                 frameId := retVal.frameId
                 metaData := retVal.metaData } ∧
      lookupKey (getResult A s).2.completedInferenceResults
        s.outputFrameId = none ∧
      (∀ k, k ≠ s.outputFrameId →
        lookupKey (getResult A s).2.completedInferenceResults k =
          lookupKey s.completedInferenceResults k) ∧
      (getResult A s).2.outputFrameId = bumpFrameId s.outputFrameId) := by
  constructor
  · intro h
    exact getResult_of_none A h
  · intro retVal h
    rw [getResult_of_some A h]
    refine ⟨rfl, ?_, ?_, ?_⟩
    · show lookupKey (eraseKey s.completedInferenceResults s.outputFrameId)
        s.outputFrameId = none
      exact lookupKey_eraseKey_self hnd
    · intro k hk
      show lookupKey (eraseKey s.completedInferenceResults s.outputFrameId)
        k = lookupKey s.completedInferenceResults k
      exact lookupKey_eraseKey_ne hk
    · show bumpFrameId retVal.frameId = bumpFrameId s.outputFrameId
      rw [hkeys _ (lookupKey_mem h)]

/-- The pending-results entry used by the C5 witness. -/
def c5Entry : InferenceResult Nat Unit Nat :=
  { frameId := 0, metaData := 42, internalModelData := (), outputsData := [] }

/-- The pipeline state used by the C5 witness: one pending result keyed 0,
output cursor 0. -/
def c5State : PipelineState Nat Unit Nat Nat :=
  { requestsPool := [true]
    completedInferenceResults := [((0 : Int), c5Entry)]
    inputFrameId := 1
    outputFrameId := 0
    callbackException := none
    inFlight := [] }

/-- Witness for C5: on `c5State` the retrieval empties the map at key 0
and advances the output cursor by the wrapped increment. -/
theorem claim_C5_witness :
    ((∀ kv ∈ c5State.completedInferenceResults, kv.2.frameId = kv.1) ∧
      keysNodup c5State) ∧
    lookupKey (getResult natAdapter
      c5State).2.completedInferenceResults 0 = none ∧
    (getResult natAdapter c5State).2.outputFrameId = bumpFrameId 0 :=
  ⟨⟨by decide, by unfold keysNodup c5State; decide⟩,
   ((claim_C5_getResult natAdapter c5State (by decide)
      (by unfold keysNodup c5State; decide)).2 c5Entry (by decide)).2.1,
   (by
      have h := ((claim_C5_getResult natAdapter c5State (by decide)
        (by unfold keysNodup c5State; decide)).2 c5Entry (by decide)).2.2.2
      simpa [c5State] using h)⟩

/-- C6: both cursors are wrap-to-zero signed `int64_t` counters that never
become negative: the wrapped increment is always non-negative, acts as
`+1` below the `int64` maximum, and maps the maximum to 0; an accepted
submission returns the input cursor and bumps it; a successful retrieval
bumps the output cursor from the retrieved frame id; and once the input
cursor sits at the `int64` maximum, the accepting submission returns the
maximum, the cursor wraps to 0, and the next accepted submission is
assigned sequence number 0. -/
theorem claim_C6_cursor_wraparound (A : ModelAdapter I M D O R) :
    (∀ x : Int, 0 ≤ bumpFrameId x) ∧
    (∀ x : Int, 0 ≤ x → x < int64Max → bumpFrameId x = x + 1) ∧
    bumpFrameId int64Max = 0 ∧
    (∀ (s : PipelineState M D O E) (i : I) (m : M),
      (submitData A s i m).1 ≠ -1 →
      (submitData A s i m).1 = s.inputFrameId ∧
      (submitData A s i m).2.inputFrameId = bumpFrameId s.inputFrameId) ∧
    (∀ (s : PipelineState M D O E) (retVal : InferenceResult M D O),
      lookupKey s.completedInferenceResults s.outputFrameId = some retVal →
      (getInferenceResult s).2.outputFrameId = bumpFrameId retVal.frameId) ∧
    (∀ (s : PipelineState M D O E) (i : I) (m : M),
      s.inputFrameId = int64Max →
      (submitData A s i m).1 ≠ -1 →
      (submitData A s i m).1 = int64Max ∧
      (submitData A s i m).2.inputFrameId = 0 ∧
      (∀ (i' : I) (m' : M),
        (submitData A (submitData A s i m).2 i' m').1 ≠ -1 →
        (submitData A (submitData A s i m).2 i' m').1 = 0)) := by
  have hsub : ∀ (s : PipelineState M D O E) (i : I) (m : M),
      (submitData A s i m).1 ≠ -1 →
      (submitData A s i m).1 = s.inputFrameId ∧
      (submitData A s i m).2.inputFrameId = bumpFrameId s.inputFrameId := by
    intro s i m hne
    rcases hp : getIdleRequest s.requestsPool with ⟨q, pool'⟩
    cases q with
    | none =>
      rw [submitData_of_none i m (by rw [hp])] at hne
      simp at hne
    | some req =>
      rw [submitData_of_some i m hp]
      exact ⟨rfl, rfl⟩
  refine ⟨bumpFrameId_nonneg,
    fun x h1 h2 => bumpFrameId_eq_add_one h1 h2,
    bumpFrameId_int64Max, hsub, ?_, ?_⟩
  · intro s retVal h
    rw [getInferenceResult_of_some h]
  · intro s i m hmaxS hne
    obtain ⟨h1, h2⟩ := hsub s i m hne
    refine ⟨by rw [h1, hmaxS], by rw [h2, hmaxS, bumpFrameId_int64Max], ?_⟩
    intro i' m' hne'
    obtain ⟨h1', _⟩ := hsub _ i' m' hne'
    rw [h1', h2, hmaxS, bumpFrameId_int64Max]

/-- The pipeline state used by the C6 witness: the input cursor sits at
the `int64` maximum and the pool has idle slots. -/
def c6State : PipelineState Nat Unit Nat Nat :=
  { requestsPool := [true, true]
    completedInferenceResults := []
    inputFrameId := int64Max
    outputFrameId := 0
    callbackException := none
    inFlight := [] }

/-- Witness for C6: the wrapped increment of 5 is 6; from `c6State` the
accepted submission returns the `int64` maximum and wraps the input cursor
to 0. -/
theorem claim_C6_witness :
    ((0 : Int) ≤ 5 ∧ (5 : Int) < int64Max ∧
      c6State.inputFrameId = int64Max ∧
      (submitData natAdapter c6State () 1).1 ≠ -1) ∧
    bumpFrameId 5 = 5 + 1 ∧
    (submitData natAdapter c6State () 1).1 = int64Max ∧
    (submitData natAdapter c6State () 1).2.inputFrameId = 0 :=
  ⟨⟨by norm_num, by norm_num [int64Max], rfl, by decide⟩,
   (claim_C6_cursor_wraparound (E := Nat) natAdapter).2.1 5 (by norm_num)
     (by norm_num [int64Max]),
   ((claim_C6_cursor_wraparound (E := Nat) natAdapter).2.2.2.2.2 c6State () 1 rfl
     (by decide)).1,
   ((claim_C6_cursor_wraparound (E := Nat) natAdapter).2.2.2.2.2 c6State () 1 rfl
     (by decide)).2.1⟩

/-- C7: metadata round-trip — along any run of the pipeline, the `j`-th
result handed out by `getResult` carries sequence number `j` and exactly
the metadata handle the caller passed to the `j`-th accepted `submitData`
call (the completion continuation stores it in the `InferenceResult` and
`getResult` copies it through). -/
theorem claim_C7_metadata_roundtrip (A : ModelAdapter I M D O R) (c : Nat)
    (t : List (Event I M O E))
    (hmax : countSubmits t ≤ int64MaxNat) :
    ∀ (j : Nat) (r : FinalResult M R),
      (runTrace A (initRun c) t).retrieved[j]? = some r →
      r.frameId = (j : Int) ∧
      (runTrace A (initRun c) t).accepted[j]? =
        some ((j : Int), r.metaData) := by
  intro j r hj
  have hInv := (inv_runTrace A t (initRun c) (inv_initRun c)
    (by simpa [initRun] using hmax)).1
  exact hInv.2.2.2.2 j r hj

/-- The trace used by the C7 witness: two submissions with metadata 10 and
11, completions in reversed order, two retrievals. -/
def c7Trace : List (Event Unit Nat Nat Nat) :=
  [Event.submit () 10, Event.submit () 11,
   Event.complete 1 natBlob, Event.complete 0 natBlob,
   Event.getResult, Event.getResult]

set_option maxRecDepth 8000 in
/-- Witness for C7: the second retrieved result of `c7Trace` carries
sequence number 1 and the metadata 11 passed at the second submission. -/
theorem claim_C7_witness :
    (countSubmits c7Trace ≤ int64MaxNat ∧
      (runTrace natAdapter (initRun (E := Nat) 2) c7Trace).retrieved[1]? =
        some ⟨1, 11, ()⟩) ∧
    ((⟨1, 11, ()⟩ : FinalResult Nat Unit).frameId = ((1 : Nat) : Int) ∧
      (runTrace natAdapter (initRun (E := Nat) 2) c7Trace).accepted[1]? =
        some (((1 : Nat) : Int),
          (⟨1, 11, ()⟩ : FinalResult Nat Unit).metaData)) :=
  ⟨⟨by decide, by decide⟩,
   claim_C7_metadata_roundtrip natAdapter 2 c7Trace (by decide) 1 ⟨1, 11, ()⟩
     (by decide)⟩

/-! ### C8: lock discipline (structural transcription of the source)

The claim is about which statements of `async_pipeline.cpp` execute while
holding the shared mutex `mtx`.  That is a syntactic property of the
source, so it is embedded as a transcription: one record per shared-state
access, tagged with its source line and whether `mtx` is held there. -/

/-- The pieces of mutable shared state named by the spec (section 5). -/
inductive SharedVar where
  | pendingResultsMap
  | slotFlags
  | inputCursor
  | outputCursor
  | exceptionSlot
  deriving DecidableEq

/-- One access to a piece of shared state in the source, with its source
line and whether the pipeline mutex `mtx` is held at that point. -/
structure SharedAccess where
  var : SharedVar
  line : Nat
  underMutex : Bool
  deriving DecidableEq

/-- Transcribed from `AsyncPipeline::waitForData` (lines 75-85): the whole
body runs under `std::unique_lock(mtx)` taken at line 76. -/
def waitForDataAccesses : List SharedAccess :=
  [⟨SharedVar.exceptionSlot, 78, true⟩,
   ⟨SharedVar.slotFlags, 79, true⟩,
   ⟨SharedVar.pendingResultsMap, 80, true⟩,
   ⟨SharedVar.outputCursor, 80, true⟩,
   ⟨SharedVar.exceptionSlot, 83, true⟩]

/-- Transcribed from `AsyncPipeline::submitData` (lines 87-132): the
function body never locks `mtx` (only the completion callback it registers
does): the input-cursor read at line 88, the idle-slot acquisition at line
90 and the input-cursor increment-and-reset at lines 126-128 all run
without the mutex. -/
def submitDataAccesses : List SharedAccess :=
  [⟨SharedVar.inputCursor, 88, false⟩,
   ⟨SharedVar.slotFlags, 90, false⟩,
   ⟨SharedVar.inputCursor, 126, false⟩,
   ⟨SharedVar.inputCursor, 127, false⟩,
   ⟨SharedVar.inputCursor, 128, false⟩]

/-- Transcribed from the completion callback body (lines 101-123): runs
under `std::lock_guard(mtx)` taken at line 102. -/
def completionCallbackAccesses : List SharedAccess :=
  [⟨SharedVar.pendingResultsMap, 114, true⟩,
   ⟨SharedVar.slotFlags, 115, true⟩,
   ⟨SharedVar.exceptionSlot, 118, true⟩,
   ⟨SharedVar.exceptionSlot, 119, true⟩]

/-- Transcribed from `AsyncPipeline::getInferenceResult` (lines 146-167):
the output-cursor read and the map find/move/erase at lines 151-155 are
inside the `std::lock_guard` scope (lines 149-157), but the output-cursor
assignment, increment and reset at lines 160-163 run after that scope has
closed, without the mutex. -/
def getInferenceResultAccesses : List SharedAccess :=
  [⟨SharedVar.outputCursor, 151, true⟩,
   ⟨SharedVar.pendingResultsMap, 151, true⟩,
   ⟨SharedVar.pendingResultsMap, 154, true⟩,
   ⟨SharedVar.pendingResultsMap, 155, true⟩,
   ⟨SharedVar.outputCursor, 160, false⟩,
   ⟨SharedVar.outputCursor, 161, false⟩,
   ⟨SharedVar.outputCursor, 162, false⟩,
   ⟨SharedVar.outputCursor, 163, false⟩]

/-- All shared-state accesses of the pipeline's four code paths. -/
def pipelineAccesses : List SharedAccess :=
  waitForDataAccesses ++ submitDataAccesses ++
    completionCallbackAccesses ++ getInferenceResultAccesses

/-- C8 counterexample: it is NOT the case that every access to the
pipeline's mutable shared state happens while holding the mutex — the
input-cursor read at line 88, the slot acquisition at line 90, the
input-cursor increment at lines 126-128 and the output-cursor advance at
lines 160-163 all run outside the lock. -/
theorem claim_C8_counterexample :
    ¬(∀ a ∈ pipelineAccesses, a.underMutex = true) := by
  decide

/-- C8 (amended): the pending-results map and the callback exception slot
are accessed only under the mutex, as is every shared-state access in
`waitForData` and in the completion callback; but `submitData` reads and
increments the input cursor and acquires the idle slot outside the mutex,
and `getInferenceResult` advances the output cursor (lines 160-163)
outside the mutex. -/
theorem claim_C8_lock_discipline :
    (∀ a ∈ pipelineAccesses,
      a.var = SharedVar.pendingResultsMap → a.underMutex = true) ∧
    (∀ a ∈ pipelineAccesses,
      a.var = SharedVar.exceptionSlot → a.underMutex = true) ∧
    (∀ a ∈ waitForDataAccesses ++ completionCallbackAccesses,
      a.underMutex = true) ∧
    (∀ a ∈ submitDataAccesses, a.underMutex = false) ∧
    (∀ a ∈ getInferenceResultAccesses,
      a.var = SharedVar.outputCursor → 160 ≤ a.line →
        a.underMutex = false) := by
  decide

/-- C9: on every reachable state, `submitData` returns the `-1` rejection
sentinel exactly when the pool is exhausted, and every successful call
returns a non-negative sequence number — so the sentinel can never collide
with a sequence number assigned to an accepted submission. -/
theorem claim_C9_sentinel_no_collision (A : ModelAdapter I M D O R)
    (c : Nat) (t : List (Event I M O E)) (i : I) (m : M) :
    ((submitData A (runTrace A (initRun (E := E) c) t).st i m).1 = -1 ↔
      isIdleRequestAvailable
        (runTrace A (initRun (E := E) c) t).st.requestsPool = false) ∧
    ((submitData A (runTrace A (initRun (E := E) c) t).st i m).1 ≠ -1 →
      0 ≤ (submitData A (runTrace A (initRun (E := E) c) t).st i m).1) := by
  have h0 : 0 ≤ (runTrace A (initRun (E := E) c) t).st.inputFrameId := by
    apply inputFrameId_nonneg
    simp [initRun, initState]
  refine ⟨submitData_rejected_iff A h0 i m, ?_⟩
  intro hne
  rcases hp : getIdleRequest
    (runTrace A (initRun (E := E) c) t).st.requestsPool with ⟨q, pool'⟩
  cases q with
  | none =>
    rw [submitData_of_none i m (by rw [hp])] at hne
    simp at hne
  | some req =>
    rw [submitData_of_some i m hp]
    exact h0

/-- Witness for C9: on the fresh capacity-1 pipeline a submission is
accepted and its sequence number 0 is non-negative. -/
theorem claim_C9_witness :
    ((submitData natAdapter (runTrace natAdapter (initRun (E := Nat) 1)
        ([] : List (Event Unit Nat Nat Nat))).st () 5).1 ≠ -1) ∧
    ((submitData natAdapter (runTrace natAdapter (initRun (E := Nat) 1)
        ([] : List (Event Unit Nat Nat Nat))).st () 5).1 = -1 ↔
      isIdleRequestAvailable (runTrace natAdapter (initRun (E := Nat) 1)
        ([] : List (Event Unit Nat Nat Nat))).st.requestsPool = false) ∧
    (0 ≤ (submitData natAdapter (runTrace natAdapter (initRun (E := Nat) 1)
        ([] : List (Event Unit Nat Nat Nat))).st () 5).1) :=
  ⟨by decide,
   (claim_C9_sentinel_no_collision natAdapter 1 [] () 5).1,
   (claim_C9_sentinel_no_collision natAdapter 1 [] () 5).2 (by decide)⟩

/-- C10: a rejected submission leaves the pipeline state completely
unchanged — same cursors, same pending-results map, same pool, no
completion callback registered — and the next accepted submission receives
the same sequence number the rejected one would have received. -/
theorem claim_C10_rejection_no_effect (A : ModelAdapter I M D O R)
    (s : PipelineState M D O E) (i : I) (m : M)
    (h : isIdleRequestAvailable s.requestsPool = false) :
    submitData A s i m = (-1, s) ∧
    (∀ (i' : I) (m' : M),
      (submitData A ((submitData A s i m).2) i' m').1 =
        (submitData A s i' m').1) := by
  have hnone : (getIdleRequest s.requestsPool).1 = none :=
    (getIdleRequest_fst_none_iff _).mpr h
  have h1 := submitData_of_none (A := A) i m hnone
  refine ⟨h1, ?_⟩
  intro i' m'
  rw [h1]

/-- Witness for C10: with the single slot busy, a submission is rejected
and the state (cursor 3 included) is returned untouched. -/
theorem claim_C10_witness :
    isIdleRequestAvailable
      (⟨[false], [], 3, 0, none, []⟩ :
        PipelineState Nat Unit Nat Nat).requestsPool = false ∧
    submitData natAdapter
      (⟨[false], [], 3, 0, none, []⟩ : PipelineState Nat Unit Nat Nat) () 9 =
      (-1, (⟨[false], [], 3, 0, none, []⟩ : PipelineState Nat Unit Nat Nat)) :=
  ⟨by decide,
   (claim_C10_rejection_no_effect natAdapter _ () 9 (by decide)).1⟩

end AsyncPipelineModel
